import Mathlib

/-!
Shallow embedding of the SonarAI demo's core logic: the Jaccard word-similarity
scorer, the streaming scene sampler tick, the sentence segmenter of the
streamed chat response, the utterance classifier and router, the conversation
history bound, and the speech-synthesis priority/mute behaviour.

Sources: src/src/components/StreamingMode.jsx, src/src/pages/Demo.jsx,
src/api/chat.js and the unnamed parts (part_007, part_008) holding the
wake-word streaming component.
-/

namespace SonarAI

/-- Whitespace test modelling the character class used by the JS regexes
(space, tab, newline, carriage return cover every input in this development). -/
def isWS (c : Char) : Bool :=
  c = ' ' || c = '\t' || c = '\n' || c = '\r'

/-- Helper for jsSplitWS. The state is some acc while inside a token whose
characters are held reversed in acc, and none while inside a whitespace run
(a separator match of the regex); a run that reaches the end of the input
contributes a trailing empty token, exactly as JS split(/\s+/) does. -/
def splitWSAux : List Char → Option (List Char) → List (List Char)
  | [], some acc => [acc.reverse]
  | [], none => [[]]
  | c :: rest, some acc =>
    if isWS c then acc.reverse :: splitWSAux rest none
    else splitWSAux rest (some (c :: acc))
  | c :: rest, none =>
    if isWS c then splitWSAux rest none
    else splitWSAux rest (some [c])

/-- Model of JS String.prototype.split(/\s+/): the input is cut at every
maximal whitespace run; leading or trailing whitespace contributes an empty
boundary token, and the empty input yields the single token of the empty
string — all as in JS. -/
def jsSplitWS (l : List Char) : List (List Char) :=
  splitWSAux l (some [])

/-- Model of JS String.prototype.toLowerCase on the character list (the
repository only feeds it ASCII text). -/
def jsToLowerL (s : String) : List Char :=
  s.data.map Char.toLower

/-- wordSimilarity from StreamingMode.jsx lines 14-21 and part_007 lines 9-16:
guard returning 0 when either input is the empty string (JS falsy check on a
string), token sets via new Set(x.toLowerCase().split(/\s+/)) modelled as the
deduplicated token list, intersection via spreading set A and filtering by
membership in set B, union via the set of the concatenation, and the final
ratio guarded against an empty union. -/
def wordSimilarity (a b : String) : ℚ :=
  if a = "" ∨ b = "" then 0
  else
    let setA := (jsSplitWS (jsToLowerL a)).dedup
    let setB := (jsSplitWS (jsToLowerL b)).dedup
    let intersection := (setA.filter fun w => decide (w ∈ setB)).length
    let union := (setA ++ setB).dedup.length
    if union = 0 then 0 else (intersection : ℚ) / (union : ℚ)

/-- The similarity contract as the spec words it: the Jaccard index of the two
sets obtained by lower-casing each input and splitting it on whitespace, and 0
whenever either input is the empty string. -/
def similaritySpec (a b : String) : ℚ :=
  if a = "" ∨ b = "" then 0
  else
    let A := (jsSplitWS (jsToLowerL a)).toFinset
    let B := (jsSplitWS (jsToLowerL b)).toFinset
    ((A ∩ B).card : ℚ) / ((A ∪ B).card : ℚ)

theorem splitWSAux_ne_nil (l : List Char) : ∀ st, splitWSAux l st ≠ [] := by
  induction l with
  | nil => intro st; cases st <;> simp [splitWSAux]
  | cons c rest ih =>
    intro st
    cases st with
    | some acc =>
      by_cases h : isWS c
      · simp [splitWSAux, h]
      · simpa [splitWSAux, h] using ih (some (c :: acc))
    | none =>
      by_cases h : isWS c
      · simpa [splitWSAux, h] using ih none
      · simpa [splitWSAux, h] using ih (some [c])

theorem jsSplitWS_ne_nil (l : List Char) : jsSplitWS l ≠ [] :=
  splitWSAux_ne_nil l (some [])

theorem jsSplitWS_toFinset_nonempty (l : List Char) :
    (jsSplitWS l).toFinset.Nonempty := by
  cases h : jsSplitWS l with
  | nil => exact absurd h (jsSplitWS_ne_nil l)
  | cons t ts => exact ⟨t, by simp [h]⟩

/-- Bridge between the operational token-set arithmetic of wordSimilarity (JS
Set spreading, filtering and sizing) and the set-theoretic cardinalities of
the spec: the filtered intersection count is the intersection cardinality and
the deduplicated concatenation length is the union cardinality. -/
theorem wordSimilarity_eq_similaritySpec (a b : String) :
    wordSimilarity a b = similaritySpec a b := by
  unfold wordSimilarity similaritySpec
  by_cases hab : a = "" ∨ b = ""
  · simp [hab]
  · simp only [hab, if_false]
    set L1 := jsSplitWS (jsToLowerL a) with hL1
    set L2 := jsSplitWS (jsToLowerL b) with hL2
    have hinter : ((L1.dedup.filter fun w => decide (w ∈ L2.dedup)).length : ℚ)
        = ((L1.toFinset ∩ L2.toFinset).card : ℚ) := by
      have hnd : (L1.dedup.filter fun w => decide (w ∈ L2.dedup)).Nodup :=
        (List.nodup_dedup L1).filter _
      have hset : (L1.dedup.filter fun w => decide (w ∈ L2.dedup)).toFinset
          = L1.toFinset ∩ L2.toFinset := by
        ext x
        simp [List.mem_filter, List.mem_dedup]
      rw [← List.toFinset_card_of_nodup hnd, hset]
    have hunion : (((L1.dedup ++ L2.dedup).dedup).length : ℚ)
        = ((L1.toFinset ∪ L2.toFinset).card : ℚ) := by
      have hnd : ((L1.dedup ++ L2.dedup).dedup).Nodup := List.nodup_dedup _
      have hset : ((L1.dedup ++ L2.dedup).dedup).toFinset
          = L1.toFinset ∪ L2.toFinset := by
        ext x
        simp [List.mem_dedup, List.mem_append]
      rw [← List.toFinset_card_of_nodup hnd, hset]
    have hne : ((L1.dedup ++ L2.dedup).dedup).length ≠ 0 := by
      intro h0
      have : (L1.dedup ++ L2.dedup).dedup = [] := List.length_eq_zero.mp h0
      have : L1.dedup ++ L2.dedup = [] := (List.dedup_eq_nil _).mp this
      have : L1.dedup = [] := by
        cases h' : L1.dedup with
        | nil => rfl
        | cons x xs => simp [h'] at this
      exact jsSplitWS_ne_nil (jsToLowerL a) ((List.dedup_eq_nil _).mp this)
    simp only [hne, if_false]
    rw [hinter, hunion]

theorem wordSimilarity_self (x : String) (hx : x ≠ "") : wordSimilarity x x = 1 := by
  rw [wordSimilarity_eq_similaritySpec]
  unfold similaritySpec
  have hor : ¬(x = "" ∨ x = "") := by simpa using hx
  simp only [hor, if_false]
  obtain ⟨w, hw⟩ := jsSplitWS_toFinset_nonempty (jsToLowerL x)
  have hpos : 0 < (jsSplitWS (jsToLowerL x)).toFinset.card := Finset.card_pos.mpr ⟨w, hw⟩
  have hcard : ((jsSplitWS (jsToLowerL x)).toFinset.card : ℚ) ≠ 0 := by
    exact_mod_cast hpos.ne'
  simp [Finset.inter_self, Finset.union_self, div_self hcard]

/-- C2: wordSimilarity equals the Jaccard index of the lower-cased
whitespace-split token sets with the empty-input guard, is 1 on any non-empty
input paired with itself, is 0 on two empty inputs, and gives 1/3 on the pair
of "a b" and "b c". -/
theorem c2_wordSimilarity_jaccard :
    (∀ a b : String, wordSimilarity a b = similaritySpec a b) ∧
    (∀ x : String, x ≠ "" → wordSimilarity x x = 1) ∧
    wordSimilarity "" "" = 0 ∧
    wordSimilarity "a b" "b c" = 1 / 3 := by
  refine ⟨wordSimilarity_eq_similaritySpec, wordSimilarity_self, by simp [wordSimilarity], ?_⟩
  have hi : ((jsSplitWS (jsToLowerL "a b")).dedup.filter fun w =>
      decide (w ∈ (jsSplitWS (jsToLowerL "b c")).dedup)).length = 1 := by decide
  have hu : (((jsSplitWS (jsToLowerL "a b")).dedup ++
      (jsSplitWS (jsToLowerL "b c")).dedup)).dedup.length = 3 := by decide
  have hg : ¬(("a b" : String) = "" ∨ ("b c" : String) = "") := by decide
  unfold wordSimilarity
  simp only [hg, if_false, hi, hu]
  norm_num

/-- Witness instantiating the hypotheses of c2_wordSimilarity_jaccard at a
concrete non-empty string. -/
theorem c2_wordSimilarity_jaccard_witness : wordSimilarity "hello" "hello" = 1 :=
  c2_wordSimilarity_jaccard.2.1 "hello" (by decide)

/-- Sentence terminator class of the JS regex used in streamResponse of
Demo.jsx (the character class of dot, bang and question mark). -/
def termChar (c : Char) : Bool :=
  c = '.' || c = '!' || c = '?'

/-- Model of buffer.search(/[.!?]\s/): index of the first occurrence of a
terminator character immediately followed by a whitespace character, none
when no such pair exists. -/
def findSplit : List Char → Option Nat
  | c1 :: c2 :: rest =>
    if termChar c1 && isWS c2 then some 0
    else (findSplit (c2 :: rest)).map (· + 1)
  | _ => none

/-- Fuel-indexed form of the while loop in flush of streamResponse
(Demo.jsx lines 574-580): as long as the buffer has a terminator followed by
whitespace, emit the slice up to and including the terminator, trim leading
whitespace from the remainder, and rescan. Each pass consumes at least one
character, so fuel equal to the buffer length always suffices; the lemma
flushLoopF_fuel proves the fuel never matters beyond that bound. -/
def flushLoopF : Nat → List Char → List (List Char) × List Char
  | 0, buf => ([], buf)
  | fuel + 1, buf =>
    match findSplit buf with
    | none => ([], buf)
    | some i =>
      let res := flushLoopF fuel ((buf.drop (i + 1)).dropWhile isWS)
      (buf.take (i + 1) :: res.1, res.2)

/-- The flush loop of streamResponse: first component the emitted sentences
in order, second the remaining buffer. -/
def flushLoop (buf : List Char) : List (List Char) × List Char :=
  flushLoopF buf.length buf

/-- One feed call of the segmenter: the chunk is appended to the buffer and
complete sentences are flushed within the same call. -/
def segFeed (buffer chunk : List Char) : List (List Char) × List Char :=
  flushLoop (buffer ++ chunk)

theorem findSplit_nil : findSplit ([] : List Char) = none := rfl

theorem findSplit_single (c : Char) : findSplit [c] = none := rfl

theorem findSplit_cons2 (c1 c2 : Char) (rest : List Char) :
    findSplit (c1 :: c2 :: rest) =
      if termChar c1 && isWS c2 then some 0
      else (findSplit (c2 :: rest)).map (· + 1) := rfl

theorem findSplit_length (l : List Char) : ∀ i, findSplit l = some i → i + 2 ≤ l.length := by
  induction l with
  | nil => intro i h; rw [findSplit_nil] at h; simp at h
  | cons c1 tl ih =>
    cases tl with
    | nil => intro i h; rw [findSplit_single] at h; simp at h
    | cons c2 rest =>
      intro i h
      rw [findSplit_cons2] at h
      by_cases hc : (termChar c1 && isWS c2) = true
      · rw [if_pos hc] at h
        have hi : i = 0 := by simpa using h.symm
        subst hi
        simp
      · rw [if_neg hc, Option.map_eq_some'] at h
        obtain ⟨j, hj, hji⟩ := h
        have := ih j hj
        simp only [List.length_cons] at this ⊢
        omega

theorem dropWhile_length_le (p : Char → Bool) (l : List Char) :
    (l.dropWhile p).length ≤ l.length := by
  induction l with
  | nil => simp
  | cons c tl ih =>
    by_cases h : p c
    · simp only [List.dropWhile_cons, h, if_true]
      exact le_trans ih (by simp)
    · simp [List.dropWhile_cons, h]

theorem flushLoopF_fuel (f1 : Nat) : ∀ (f2 : Nat) (buf : List Char),
    buf.length ≤ f1 → buf.length ≤ f2 → flushLoopF f1 buf = flushLoopF f2 buf := by
  induction f1 with
  | zero =>
    intro f2 buf h1 _
    have hb : buf = [] := List.length_eq_zero.mp (Nat.le_zero.mp h1)
    subst hb
    cases f2 with
    | zero => rfl
    | succ m => simp [flushLoopF, findSplit_nil]
  | succ n ih =>
    intro f2 buf h1 h2
    cases f2 with
    | zero =>
      have hb : buf = [] := List.length_eq_zero.mp (Nat.le_zero.mp h2)
      subst hb
      simp [flushLoopF, findSplit_nil]
    | succ m =>
      simp only [flushLoopF]
      cases h : findSplit buf with
      | none => rfl
      | some i =>
        have hlen := findSplit_length buf i h
        have hrest : ((buf.drop (i + 1)).dropWhile isWS).length ≤ buf.length - (i + 1) := by
          have := dropWhile_length_le isWS (buf.drop (i + 1))
          simpa [List.length_drop] using this
        have hr1 : ((buf.drop (i + 1)).dropWhile isWS).length ≤ n := by omega
        have hr2 : ((buf.drop (i + 1)).dropWhile isWS).length ≤ m := by omega
        simp [ih m _ hr1 hr2]

theorem flushLoop_no_match (buf : List Char) (h : findSplit buf = none) :
    flushLoop buf = ([], buf) := by
  unfold flushLoop
  cases hbl : buf.length with
  | zero => rfl
  | succ n => simp [flushLoopF, h]

theorem flushLoop_match (buf : List Char) (i : Nat) (h : findSplit buf = some i) :
    flushLoop buf = (buf.take (i + 1) :: (flushLoop ((buf.drop (i + 1)).dropWhile isWS)).1,
      (flushLoop ((buf.drop (i + 1)).dropWhile isWS)).2) := by
  have hlen := findSplit_length buf i h
  unfold flushLoop
  cases hbl : buf.length with
  | zero => omega
  | succ n =>
    simp only [flushLoopF, h]
    have hrest : ((buf.drop (i + 1)).dropWhile isWS).length ≤ buf.length - (i + 1) := by
      have := dropWhile_length_le isWS (buf.drop (i + 1))
      simpa [List.length_drop] using this
    have hr1 : ((buf.drop (i + 1)).dropWhile isWS).length ≤ n := by omega
    rw [flushLoopF_fuel n _ _ hr1 (le_refl _)]

theorem findSplit_none_iff (l : List Char) :
    findSplit l = none ↔
      ∀ n c1 c2, l[n]? = some c1 → l[n + 1]? = some c2 → ¬(termChar c1 ∧ isWS c2) := by
  induction l with
  | nil =>
    constructor
    · intro _ n c1 c2 h1 _
      simp at h1
    · intro _; rfl
  | cons c1 tl ih =>
    cases tl with
    | nil =>
      constructor
      · intro _ n d1 d2 h1 h2
        cases n with
        | zero => simp at h2
        | succ m => simp at h1
      · intro _; rfl
    | cons c2 rest =>
      rw [findSplit_cons2]
      by_cases hc : (termChar c1 && isWS c2) = true
      · rw [if_pos hc]
        constructor
        · intro h; simp at h
        · intro hforall
          exfalso
          exact hforall 0 c1 c2 (by simp) (by simp) (by simpa using hc)
      · rw [if_neg hc, Option.map_eq_none']
        rw [ih]
        constructor
        · intro hforall n d1 d2 h1 h2
          cases n with
          | zero =>
            simp only [List.getElem?_cons_zero, Option.some_inj] at h1
            simp only [List.getElem?_cons_succ, List.getElem?_cons_zero, Option.some_inj] at h2
            subst h1; subst h2
            intro hand
            exact hc (by simp [hand.1, hand.2])
          | succ m =>
            simp only [List.getElem?_cons_succ] at h1 h2
            exact hforall m d1 d2 h1 (by simpa using h2)
        · intro hforall n d1 d2 h1 h2
          exact hforall (n + 1) d1 d2 (by simpa using h1) (by simpa using h2)

/-- C3: the sentence segmenter emits a sentence exactly when the accumulated
buffer holds a terminator immediately followed by whitespace; each emission is
the buffer up to and including the terminator, with the remainder trimmed of
leading whitespace and rescanned within the same feed; a terminator not
followed by whitespace causes no split; and the two-feed example yields
exactly the sentences of the spec in order. -/
theorem c3_sentence_segmenter :
    ((segFeed [] "Hello world. How are".data).1 = ["Hello world.".data] ∧
     (segFeed [] "Hello world. How are".data).2 = "How are".data ∧
     (segFeed "How are".data " you? ".data).1 = ["How are you?".data] ∧
     (segFeed "How are".data " you? ".data).2 = []) ∧
    (segFeed [] "Pi is 3.5 roughly".data).1 = [] ∧
    (∀ buf chunk : List Char, findSplit (buf ++ chunk) = none →
      segFeed buf chunk = ([], buf ++ chunk)) ∧
    (∀ buf : List Char, (flushLoop buf).1 = [] ↔ findSplit buf = none) ∧
    (∀ l : List Char, findSplit l = none ↔
      ∀ n c1 c2, l[n]? = some c1 → l[n + 1]? = some c2 → ¬(termChar c1 ∧ isWS c2)) ∧
    (∀ (buf : List Char) (i : Nat), findSplit buf = some i →
      flushLoop buf = (buf.take (i + 1) :: (flushLoop ((buf.drop (i + 1)).dropWhile isWS)).1,
        (flushLoop ((buf.drop (i + 1)).dropWhile isWS)).2)) := by
  refine ⟨by decide, by decide, ?_, ?_, findSplit_none_iff, flushLoop_match⟩
  · intro buf chunk h
    exact flushLoop_no_match _ h
  · intro buf
    cases h : findSplit buf with
    | none => simp [flushLoop_no_match buf h]
    | some i => simp [flushLoop_match buf i h]

/-- Model of JS String.prototype.startsWith restricted to what includes
needs: the pattern is a prefix of the scanned remainder. -/
def startsWithL : List Char → List Char → Bool
  | [], _ => true
  | _ :: _, [] => false
  | p :: ps, c :: cs => p = c && startsWithL ps cs

/-- Model of JS String.prototype.includes: the pattern starts at the scan
position or somewhere in the tail. -/
def jsIncludes (pat : List Char) : List Char → Bool
  | [] => startsWithL pat []
  | c :: tl => startsWithL pat (c :: tl) || jsIncludes pat tl

theorem startsWithL_iff (pat : List Char) : ∀ s : List Char,
    startsWithL pat s = true ↔ ∃ r, s = pat ++ r := by
  induction pat with
  | nil => intro s; simp [startsWithL]
  | cons p ps ih =>
    intro s
    cases s with
    | nil => simp [startsWithL]
    | cons c cs =>
      simp only [startsWithL, Bool.and_eq_true, decide_eq_true_eq, ih]
      constructor
      · rintro ⟨rfl, r, rfl⟩
        exact ⟨r, rfl⟩
      · rintro ⟨r, h⟩
        injection h with h1 h2
        exact ⟨h1.symm, r, h2⟩

theorem jsIncludes_iff (pat : List Char) : ∀ s : List Char,
    jsIncludes pat s = true ↔ ∃ pre post, s = pre ++ pat ++ post := by
  intro s
  induction s with
  | nil =>
    simp only [jsIncludes, startsWithL_iff]
    constructor
    · rintro ⟨r, h⟩
      obtain ⟨h1, h2⟩ := List.append_eq_nil.mp h.symm
      exact ⟨[], [], by simp [h1]⟩
    · rintro ⟨pre, post, h⟩
      obtain ⟨h1, h2⟩ := List.append_eq_nil.mp h.symm
      obtain ⟨h3, h4⟩ := List.append_eq_nil.mp h1
      exact ⟨[], by simp [h4]⟩
  | cons c tl ih =>
    simp only [jsIncludes, Bool.or_eq_true, startsWithL_iff, ih]
    constructor
    · rintro (⟨r, h⟩ | ⟨pre, post, h⟩)
      · exact ⟨[], r, by simpa using h⟩
      · exact ⟨c :: pre, post, by simp [h]⟩
    · rintro ⟨pre, post, h⟩
      cases pre with
      | nil => exact Or.inl ⟨post, by simpa using h⟩
      | cons a pre2 =>
        injection h with h1 h2
        exact Or.inr ⟨pre2, post, h2⟩

/-- The fixed substring trigger list of processUserInput (Demo.jsx lines
106-108 and 612-614). -/
def captureTriggers : List String :=
  ["around", "where am i", "describe", "see", "look", "scan", "front", "surround"]

/-- The needsCapture test of processUserInput: the lower-cased utterance
contains at least one trigger substring. -/
def needsCapture (spokenText : String) : Bool :=
  captureTriggers.any fun w => jsIncludes w.data (jsToLowerL spokenText)

/-- Classification outcome of an utterance, named as in the spec. -/
inductive QueryClass where
  | NeedsCapture
  | UsesMemory
  deriving DecidableEq

/-- The classification decision embodied in processUserInput. -/
def classify (utterance : String) : QueryClass :=
  if needsCapture utterance then QueryClass.NeedsCapture else QueryClass.UsesMemory

theorem needsCapture_iff (u : String) :
    needsCapture u = true ↔
      ∃ w ∈ captureTriggers, ∃ pre post, jsToLowerL u = pre ++ w.data ++ post := by
  unfold needsCapture
  rw [List.any_eq_true]
  constructor
  · rintro ⟨w, hw, hj⟩
    exact ⟨w, hw, (jsIncludes_iff _ _).mp hj⟩
  · rintro ⟨w, hw, h⟩
    exact ⟨w, hw, (jsIncludes_iff _ _).mpr h⟩

/-- C4: the utterance is lower-cased and classified NeedsCapture exactly when
it contains one of the fixed substring triggers, otherwise UsesMemory; the
four example utterances of the spec classify as stated. -/
theorem c4_classification :
    (∀ u : String, classify u = QueryClass.NeedsCapture ↔
      ∃ w ∈ captureTriggers, ∃ pre post, jsToLowerL u = pre ++ w.data ++ post) ∧
    classify "What\x27s around me?" = QueryClass.NeedsCapture ∧
    classify "Describe my surroundings" = QueryClass.NeedsCapture ∧
    classify "Where was the chair?" = QueryClass.UsesMemory ∧
    classify "Tell me more" = QueryClass.UsesMemory := by
  refine ⟨?_, by decide, by decide, by decide, by decide⟩
  intro u
  rw [← needsCapture_iff u]
  unfold classify
  by_cases h : needsCapture u = true
  · simp [h]
  · simp [h]

/-- Router outcome of one processUserInput call: the guidance result when no
memory exists, the camera-unavailable result, or a request to the chat
collaborator carrying the message, the captured image (if any) and the scene
context streamResponse would send. -/
inductive InputOutcome where
  | noMemoryGuidance (msg : String)
  | cameraUnavailable (msg : String)
  | chatQuery (message : String) (image : Option String) (sceneContext : Option String)
  deriving DecidableEq

/-- The guidance string of the empty-memory guard in processUserInput. -/
def noMemoryMsg : String :=
  "I don\x27t have any scene in memory yet. Try asking \x27What\x27s around me?\x27"

/-- The apology string of the camera guard in processUserInput. -/
def cameraUnavailableMsg : String :=
  "Camera is not available. Please allow camera access and refresh."

/-- processUserInput from Demo.jsx lines 608-641: guard on no scene and no
visual query, then the capture path (camera guard, captureImage whose result
is the captured argument), then the streamResponse request whose sceneContext
is null exactly when an image is attached. -/
def processUserInput (sceneMemory : Option String) (cameraReady : Bool)
    (captured : Option String) (spokenText : String) : InputOutcome :=
  if needsCapture spokenText = false ∧ sceneMemory = none then
    InputOutcome.noMemoryGuidance noMemoryMsg
  else if needsCapture spokenText then
    if cameraReady = false then InputOutcome.cameraUnavailable cameraUnavailableMsg
    else InputOutcome.chatQuery spokenText captured
      (if captured.isSome then none else sceneMemory)
  else InputOutcome.chatQuery spokenText none sceneMemory

/-- C5: a UsesMemory utterance arriving while scene memory is empty returns
the defined no-memory guidance result and never reaches the chat
collaborator; the outcome is an ordinary constructor of the result type, not
an error. -/
theorem c5_router_no_memory (cameraReady : Bool) (captured : Option String) (u : String)
    (h : classify u = QueryClass.UsesMemory) :
    processUserInput none cameraReady captured u = InputOutcome.noMemoryGuidance noMemoryMsg ∧
    ∀ m i s, processUserInput none cameraReady captured u ≠ InputOutcome.chatQuery m i s := by
  have hn : needsCapture u = false := by
    by_cases hb : needsCapture u = true
    · simp [classify, hb] at h
    · simpa using hb
  refine ⟨by simp [processUserInput, hn], ?_⟩
  intro m i s
  simp [processUserInput, hn]

/-- Witness instantiating c5_router_no_memory at the concrete utterance
"Tell me more" with empty scene memory. -/
theorem c5_router_no_memory_witness :
    processUserInput none true none "Tell me more" = InputOutcome.noMemoryGuidance noMemoryMsg :=
  (c5_router_no_memory true none "Tell me more" (by decide)).1

/-- Model of JS String.prototype.trim (leading and trailing whitespace
removed), used for the empty-description guard of the tick. -/
def jsTrim (s : String) : String :=
  String.mk (((s.data.dropWhile isWS).reverse.dropWhile isWS).reverse)

/-- One request handed to the speech layer: the utterance text and the
priority flag of the speak call. -/
structure SpeechRequest where
  text : String
  priority : Bool
  deriving DecidableEq

/-- The mutable state the streaming tick of part_007 touches: sceneMemory,
lastDescriptionRef, and the two metric counters (framesProcessed is the
spec's framesSampled, newDescriptions the spec's framesAccepted). -/
structure StreamState where
  sceneMemory : Option String
  lastDescription : String
  framesProcessed : Nat
  newDescriptions : Nat
  deriving DecidableEq

/-- The state right after startStreaming resets the metrics (part_007 line
221): empty memory, empty last description, both counters zero. -/
def startState : StreamState :=
  { sceneMemory := none, lastDescription := "", framesProcessed := 0, newDescriptions := 0 }

/-- One interval tick of startStreaming (part_007 lines 224-264), run to
completion with no interleaving (the isAnalyzing flag serialises ticks, so
ticks are modelled as atomic): the processing guard drops the tick; a missing
frame skips it; a failed analysis call lands in the catch with no state
change; an empty trimmed description returns before the metrics update;
otherwise framesProcessed is incremented, the similarity gate rejects a
near-duplicate, and an accepted description replaces the memory, bumps
newDescriptions and — unless a question is being processed or the voice is
muted — is handed to speak without the priority flag. The second component
lists the speak calls the tick makes. -/
def streamingTick (isProcessing voiceMuted : Bool) (st : StreamState)
    (frame : Option String) (analysis : Except String String) :
    StreamState × List SpeechRequest :=
  if isProcessing then (st, [])
  else
    match frame with
    | none => (st, [])
    | some _ =>
      match analysis with
      | Except.error _ => (st, [])
      | Except.ok description =>
        if jsTrim description = "" then (st, [])
        else
          let st1 := { st with framesProcessed := st.framesProcessed + 1 }
          if (3 : ℚ) / 4 < wordSimilarity description st.lastDescription then (st1, [])
          else
            ({ st1 with
                lastDescription := description,
                sceneMemory := some description,
                newDescriptions := st1.newDescriptions + 1 },
             if isProcessing = false ∧ voiceMuted = false then
               [{ text := description, priority := false }]
             else [])

/-- The SpeechOutputQueue mute contract as the spec states it: a non-priority
request is swallowed while muted, a priority request always plays. The code
realises this at the call sites (the tick checks voiceMutedRef before calling
speak, and speak itself never checks the mute flag); the lemma
streamingTick_mute_factor proves the two views coincide. -/
def speechAudible (muted : Bool) (reqs : List SpeechRequest) : List String :=
  reqs.filterMap fun r => if r.priority || !muted then some r.text else none

/-- The speak calls of handleQuestion (part_007 lines 304-320): the answer or
the apology, always with the priority flag, with no mute check. -/
def handleQuestionSpeech (response : Except String String) : List SpeechRequest :=
  match response with
  | Except.ok r => [{ text := r, priority := true }]
  | Except.error _ => [{ text := "Sorry, could not answer that.", priority := true }]

/-- Coupling invariant of the two memory variables of part_007: sceneMemory
and lastDescriptionRef start as null and the empty string and are always
written together with the same accepted description. -/
def memInv (st : StreamState) : Prop :=
  st.sceneMemory = if st.lastDescription = "" then none else some st.lastDescription

theorem wordSimilarity_empty_right (a : String) : wordSimilarity a "" = 0 := by
  simp [wordSimilarity]

theorem streamingTick_mute_factor (p m : Bool) (st : StreamState)
    (frame : Option String) (analysis : Except String String) :
    (streamingTick p m st frame analysis).1 = (streamingTick p false st frame analysis).1 ∧
    (streamingTick p m st frame analysis).2.map SpeechRequest.text
      = speechAudible m (streamingTick p false st frame analysis).2 := by
  cases p with
  | true => simp [streamingTick, speechAudible]
  | false =>
    cases frame with
    | none => simp [streamingTick, speechAudible]
    | some f =>
      cases analysis with
      | error e => simp [streamingTick, speechAudible]
      | ok d =>
        by_cases h1 : jsTrim d = ""
        · simp [streamingTick, h1, speechAudible]
        · by_cases h2 : (3 : ℚ) / 4 < wordSimilarity d st.lastDescription
          · simp [streamingTick, h1, h2, speechAudible]
          · cases m <;> simp [streamingTick, h1, h2, speechAudible]

/-- C1: a completed tick with a non-empty description accepts when no memory
exists or the similarity to the stored memory text is at most 0.75 — memory
is replaced, newDescriptions is incremented and the description goes to the
speech queue without priority (its audible effect given by the queue mute
contract) — and rejects when the similarity exceeds 0.75, leaving memory and
newDescriptions unchanged and discarding the text. -/
theorem c1_scene_sampler_accept_reject (m : Bool) (st : StreamState) (d f : String)
    (hinv : memInv st) (hd : jsTrim d ≠ "") :
    ((st.sceneMemory = none ∨ ∀ t, st.sceneMemory = some t → wordSimilarity d t ≤ 3 / 4) →
      (streamingTick false m st (some f) (Except.ok d)).1.sceneMemory = some d ∧
      (streamingTick false m st (some f) (Except.ok d)).1.lastDescription = d ∧
      (streamingTick false m st (some f) (Except.ok d)).1.newDescriptions
        = st.newDescriptions + 1 ∧
      (streamingTick false m st (some f) (Except.ok d)).2.map SpeechRequest.text
        = speechAudible m [{ text := d, priority := false }]) ∧
    (∀ t, st.sceneMemory = some t → 3 / 4 < wordSimilarity d t →
      (streamingTick false m st (some f) (Except.ok d)).1.sceneMemory = st.sceneMemory ∧
      (streamingTick false m st (some f) (Except.ok d)).1.lastDescription
        = st.lastDescription ∧
      (streamingTick false m st (some f) (Except.ok d)).1.newDescriptions
        = st.newDescriptions ∧
      (streamingTick false m st (some f) (Except.ok d)).2 = []) := by
  unfold memInv at hinv
  constructor
  · intro hacc
    have hn : ¬ ((3 : ℚ) / 4 < wordSimilarity d st.lastDescription) := by
      by_cases hld : st.lastDescription = ""
      · rw [hld, wordSimilarity_empty_right]; norm_num
      · have hsome : st.sceneMemory = some st.lastDescription := by rw [hinv]; simp [hld]
        rcases hacc with hnone | hle
        · rw [hsome] at hnone; simp at hnone
        · exact not_lt.mpr (hle st.lastDescription hsome)
    cases m <;> simp [streamingTick, hd, hn, speechAudible]
  · intro t hmem hgt
    have hteq : t = st.lastDescription := by
      by_cases hld : st.lastDescription = ""
      · rw [hinv] at hmem; simp [hld] at hmem
      · rw [hinv] at hmem; simp [hld] at hmem; exact hmem.symm
    have hlt : (3 : ℚ) / 4 < wordSimilarity d st.lastDescription := hteq ▸ hgt
    simp [streamingTick, hd, hlt]

/-- Witness instantiating c1_scene_sampler_accept_reject on the accept side:
from the reset state, a first non-empty description is accepted. -/
theorem c1_scene_sampler_accept_reject_witness :
    (streamingTick false false startState (some "frame")
      (Except.ok "A chair ahead.")).1.sceneMemory = some "A chair ahead." ∧
    (streamingTick false false startState (some "frame")
      (Except.ok "A chair ahead.")).1.newDescriptions = 1 := by
  have h := c1_scene_sampler_accept_reject false startState "A chair ahead." "frame"
    (by simp [memInv, startState]) (by decide)
  have hacc := h.1 (Or.inl rfl)
  exact ⟨hacc.1, hacc.2.2.1⟩

/-- C6: muting never changes the state effect of a tick (memory and metrics
still update), a muted tick makes no speak call, the queue contract swallows
exactly the non-priority requests while muted, and the priority answer of
handleQuestion is audible under any mute state. -/
theorem c6_mute_semantics :
    (∀ (p : Bool) (st : StreamState) (frame : Option String) (a : Except String String),
      (streamingTick p true st frame a).1 = (streamingTick p false st frame a).1) ∧
    (∀ (p : Bool) (st : StreamState) (frame : Option String) (a : Except String String),
      (streamingTick p true st frame a).2 = []) ∧
    (∀ t : String, speechAudible true [{ text := t, priority := false }] = []) ∧
    (∀ (muted : Bool) (r : SpeechRequest), r.priority = true →
      speechAudible muted [r] = [r.text]) ∧
    (∀ (muted : Bool) (response : Except String String),
      speechAudible muted (handleQuestionSpeech response)
        = (handleQuestionSpeech response).map SpeechRequest.text) := by
  refine ⟨fun p st f a => (streamingTick_mute_factor p true st f a).1, ?_, ?_, ?_, ?_⟩
  · intro p st frame a
    cases p with
    | true => simp [streamingTick]
    | false =>
      cases frame with
      | none => simp [streamingTick]
      | some f =>
        cases a with
        | error e => simp [streamingTick]
        | ok d =>
          by_cases h1 : jsTrim d = ""
          · simp [streamingTick, h1]
          · by_cases h2 : (3 : ℚ) / 4 < wordSimilarity d st.lastDescription
            · simp [streamingTick, h1, h2]
            · simp [streamingTick, h1, h2]
  · intro t; simp [speechAudible]
  · intro muted r h; simp [speechAudible, h]
  · intro muted resp; cases resp <;> simp [handleQuestionSpeech, speechAudible]

/-- C7 counterexample: a tick whose frame capture succeeds but whose analysis
call fails leaves framesProcessed unchanged, refuting that the counter is
incremented before the analysis request is submitted. -/
theorem c7_failed_analysis_uncounted :
    ¬ ((streamingTick false false startState (some "frame")
        (Except.error "network")).1.framesProcessed = startState.framesProcessed + 1) := by
  decide

/-- C7 amended: a no-frame tick is skipped without counting, and
framesProcessed is incremented exactly on ticks whose analysis call succeeds
with non-empty trimmed text — the increment happens after the response
completes, so a failed or empty-text analysis tick does not count. -/
theorem c7_frames_counting :
    (∀ (m : Bool) (st : StreamState) (a : Except String String),
      streamingTick false m st none a = (st, [])) ∧
    (∀ (m : Bool) (st : StreamState) (f e : String),
      streamingTick false m st (some f) (Except.error e) = (st, [])) ∧
    (∀ (m : Bool) (st : StreamState) (f d : String), jsTrim d = "" →
      streamingTick false m st (some f) (Except.ok d) = (st, [])) ∧
    (∀ (m : Bool) (st : StreamState) (f d : String), jsTrim d ≠ "" →
      (streamingTick false m st (some f) (Except.ok d)).1.framesProcessed
        = st.framesProcessed + 1) := by
  refine ⟨?_, ?_, ?_, ?_⟩
  · intro m st a; cases a <;> simp [streamingTick]
  · intro m st f e; simp [streamingTick]
  · intro m st f d h; simp [streamingTick, h]
  · intro m st f d h
    by_cases h2 : (3 : ℚ) / 4 < wordSimilarity d st.lastDescription
    · simp [streamingTick, h, h2]
    · simp [streamingTick, h, h2]

/-- The inputs one tick consumes: the two flags at the time of the tick, the
captureFrameImage result and the analysis outcome. -/
structure TickInput where
  processing : Bool
  muted : Bool
  frame : Option String
  analysis : Except String String

/-- A whole sampling session: the ticks run in order from a starting state. -/
def runTicks (st : StreamState) : List TickInput → StreamState
  | [] => st
  | i :: rest => runTicks (streamingTick i.processing i.muted st i.frame i.analysis).1 rest

theorem streamingTick_counter_step (p m : Bool) (st : StreamState)
    (frame : Option String) (a : Except String String) :
    ((streamingTick p m st frame a).1.framesProcessed = st.framesProcessed ∨
      (streamingTick p m st frame a).1.framesProcessed = st.framesProcessed + 1) ∧
    ((streamingTick p m st frame a).1.newDescriptions = st.newDescriptions ∨
      (streamingTick p m st frame a).1.newDescriptions = st.newDescriptions + 1) ∧
    ((streamingTick p m st frame a).1.newDescriptions = st.newDescriptions + 1 →
      (streamingTick p m st frame a).1.framesProcessed = st.framesProcessed + 1) := by
  cases p with
  | true => simp [streamingTick]
  | false =>
    cases frame with
    | none => simp [streamingTick]
    | some f =>
      cases a with
      | error e => simp [streamingTick]
      | ok d =>
        by_cases h1 : jsTrim d = ""
        · simp [streamingTick, h1]
        · by_cases h2 : (3 : ℚ) / 4 < wordSimilarity d st.lastDescription
          · simp [streamingTick, h1, h2]
          · simp [streamingTick, h1, h2]

theorem runTicks_le (inputs : List TickInput) : ∀ st : StreamState,
    st.newDescriptions ≤ st.framesProcessed →
    (runTicks st inputs).newDescriptions ≤ (runTicks st inputs).framesProcessed := by
  induction inputs with
  | nil => intro st h; exact h
  | cons i rest ih =>
    intro st h
    apply ih
    obtain ⟨hf, hn, himp⟩ :=
      streamingTick_counter_step i.processing i.muted st i.frame i.analysis
    rcases hn with hn | hn
    · rcases hf with hf | hf <;> omega
    · have := himp hn; omega

/-- C10: the counters start at zero, each tick increments each by at most
one, newDescriptions only increments on a tick that also increments
framesProcessed, so throughout any session newDescriptions stays at most
framesProcessed and the reported scene-change ratio never exceeds one. -/
theorem c10_metrics_invariant :
    startState.framesProcessed = 0 ∧ startState.newDescriptions = 0 ∧
    (∀ (p m : Bool) (st : StreamState) (frame : Option String) (a : Except String String),
      (streamingTick p m st frame a).1.framesProcessed ≤ st.framesProcessed + 1 ∧
      (streamingTick p m st frame a).1.newDescriptions ≤ st.newDescriptions + 1) ∧
    (∀ (p m : Bool) (st : StreamState) (frame : Option String) (a : Except String String),
      (streamingTick p m st frame a).1.newDescriptions = st.newDescriptions + 1 →
      (streamingTick p m st frame a).1.framesProcessed = st.framesProcessed + 1) ∧
    (∀ inputs : List TickInput,
      (runTicks startState inputs).newDescriptions
        ≤ (runTicks startState inputs).framesProcessed) ∧
    (∀ inputs : List TickInput,
      ((runTicks startState inputs).newDescriptions : ℚ)
        / ((runTicks startState inputs).framesProcessed : ℚ) ≤ 1) := by
  refine ⟨rfl, rfl, ?_, ?_, ?_, ?_⟩
  · intro p m st frame a
    obtain ⟨hf, hn, _⟩ := streamingTick_counter_step p m st frame a
    constructor
    · rcases hf with hf | hf <;> omega
    · rcases hn with hn | hn <;> omega
  · intro p m st frame a
    exact (streamingTick_counter_step p m st frame a).2.2
  · intro inputs
    exact runTicks_le inputs startState (le_refl 0)
  · intro inputs
    have h := runTicks_le inputs startState (le_refl 0)
    apply div_le_one_of_le₀
    · exact_mod_cast h
    · positivity

/-- One turn of the bounded conversation history. -/
structure ChatTurn where
  role : String
  content : String
  deriving DecidableEq

/-- Model of JS Array.prototype.slice(-n): the last n elements (all of them
when fewer exist). -/
def sliceLast {α : Type} (n : Nat) (l : List α) : List α :=
  l.drop (l.length - n)

/-- The history update of generateResponse (Demo.jsx lines 94-98, part_007
lines 296-300): keep the last six turns, then append the user/assistant
pair. -/
def appendHistory (prev : List ChatTurn) (u a : String) : List ChatTurn :=
  sliceLast 6 prev ++ [{ role := "user", content := u }, { role := "assistant", content := a }]

/-- The request assembly of the chat handler (api/chat.js lines 23-27):
system message, then at most the last four history turns, then the user
message. -/
def handlerMessages (systemContent : String) (history : List ChatTurn)
    (message : String) : List ChatTurn :=
  { role := "system", content := systemContent } ::
    (sliceLast 4 history ++ [{ role := "user", content := message }])

/-- C8: each answered query evicts all but the most recent six prior turns
and appends exactly one user/assistant pair, so the history never exceeds
eight turns and the kept turns form a suffix (oldest evicted first); the chat
handler includes at most the last four history turns, also as a suffix. -/
theorem c8_history_bounded :
    (∀ (prev : List ChatTurn) (u a : String),
      (appendHistory prev u a).length = min 6 prev.length + 2) ∧
    (∀ (prev : List ChatTurn) (u a : String), (appendHistory prev u a).length ≤ 8) ∧
    (∀ prev : List ChatTurn, sliceLast 6 prev <:+ prev) ∧
    (∀ (prev : List ChatTurn) (u a : String),
      [ChatTurn.mk "user" u, ChatTurn.mk "assistant" a] <:+ appendHistory prev u a) ∧
    (∀ h : List ChatTurn, (sliceLast 4 h).length ≤ 4 ∧ sliceLast 4 h <:+ h) ∧
    (∀ (sys msg : String) (h : List ChatTurn),
      handlerMessages sys h msg
        = ChatTurn.mk "system" sys :: (sliceLast 4 h ++ [ChatTurn.mk "user" msg])) := by
  refine ⟨?_, ?_, ?_, ?_, ?_, fun sys msg h => rfl⟩
  · intro prev u a
    simp [appendHistory, sliceLast]
    omega
  · intro prev u a
    simp [appendHistory, sliceLast]
    omega
  · intro prev
    exact List.drop_suffix _ _
  · intro prev u a
    exact List.suffix_append _ _
  · intro h
    refine ⟨?_, List.drop_suffix _ _⟩
    simp [sliceLast]
    omega

/-- State of the speech-synthesis collaborator (window.speechSynthesis): at
most one utterance plays at a time, the rest wait in a queue, finished
utterances are recorded in order of completion. -/
structure SynthState where
  playing : Option String
  pending : List String
  finished : List String
  deriving DecidableEq

/-- Model of window.speechSynthesis.cancel(): drops the playing utterance and
everything queued. -/
def synthCancel (st : SynthState) : SynthState :=
  { st with playing := none, pending := [] }

/-- Model of window.speechSynthesis.speak(utt): the utterance joins the
queue; the synthesiser plays queued utterances serially. -/
def synthEnqueue (st : SynthState) (text : String) : SynthState :=
  { st with pending := st.pending ++ [text] }

/-- speak(text, priority) from Demo.jsx lines 19-40 and part_007 lines 63-75:
a priority call first cancels everything, then hands the utterance to the
synthesiser. -/
def speak (st : SynthState) (text : String) (priority : Bool) : SynthState :=
  synthEnqueue (if priority then synthCancel st else st) text

/-- Serial playback to completion: the synthesiser finishes the current
utterance and then each pending utterance in order, one at a time. -/
def drainSynth (st : SynthState) : SynthState :=
  { playing := none, pending := [],
    finished := st.finished ++ st.playing.toList ++ st.pending }

/-- C9: a priority speak cancels whatever is playing or queued before the new
text is spoken, so after two back-to-back priority speaks only the second
text remains and a full playback finishes exactly that text — the first, if
it was still pending, is never played in full. -/
theorem c9_priority_cancels (st : SynthState) (t1 t2 : String)
    (h1 : t1 ∉ st.finished) (h2 : t1 ≠ t2) :
    (speak st t2 true).playing = none ∧
    (speak st t2 true).pending = [t2] ∧
    (drainSynth (speak (speak st t1 true) t2 true)).finished = st.finished ++ [t2] ∧
    t1 ∉ (drainSynth (speak (speak st t1 true) t2 true)).finished := by
  refine ⟨rfl, rfl, by simp [speak, synthEnqueue, synthCancel, drainSynth], ?_⟩
  simp [speak, synthEnqueue, synthCancel, drainSynth, h1, h2]

/-- Witness instantiating c9_priority_cancels at a fresh synthesiser state
and two distinct texts. -/
theorem c9_priority_cancels_witness :
    (drainSynth (speak (speak (SynthState.mk none [] []) "first" true) "second" true)).finished
      = ["second"] := by
  have h := c9_priority_cancels (SynthState.mk none [] []) "first" "second"
    (by simp) (by decide)
  simpa using h.2.2.1

end SonarAI
